import Mathlib

/-!
Shallow embedding of the note synthesis and secure export pipeline of the
AI Clinical Notes and Patient Management Assistant repository
(modules/note_formatter.py, modules/encryption_manager.py,
modules/export_manager.py, modules/llm_processing_ollama.py,
modules/icd_lookup.py).

Python strings are modelled as `List Char`, byte buffers as `List Nat`
(entries below 256).  Scanning functions that Python writes with `re` or
`str.replace` are modelled with an explicit fuel argument instantiated with
the input length, so every definition is structurally recursive, executable,
and evaluable by `decide`.
-/

/-- Whitespace as CPython sees it for `str` objects: both `str.strip()` /
`str.isspace` and the `re` class `\s` use `Py_UNICODE_ISSPACE`, i.e. the six
ASCII whitespace characters plus the Unicode whitespace code points. -/
def pyIsSpace (c : Char) : Bool :=
  decide (c ∈ [' ', '\t', '\n', '\x0b', '\x0c', '\r', '\x1c', '\x1d', '\x1e',
    '\x1f', '\x85', '\xa0', '\u1680', '\u2000', '\u2001', '\u2002', '\u2003',
    '\u2004', '\u2005', '\u2006', '\u2007', '\u2008', '\u2009', '\u200a',
    '\u2028', '\u2029', '\u202f', '\u205f', '\u3000'])

/-- Python `str.lower` (character-wise; the repository's data is ASCII). -/
def pyLower (l : List Char) : List Char := l.map Char.toLower

/-- Python `str.upper` (character-wise; the repository's data is ASCII). -/
def pyUpper (l : List Char) : List Char := l.map Char.toUpper

/-- Python `needle in hay` substring test on strings: `needle` starts at
some position of `hay`. -/
def pyContains (hay needle : List Char) : Bool :=
  needle.isPrefixOf hay ||
    match hay with
    | [] => false
    | _ :: rest => pyContains rest needle

/-- Python `str.strip()`: drop leading and trailing whitespace. -/
def pyStrip (l : List Char) : List Char :=
  ((l.dropWhile pyIsSpace).reverse.dropWhile pyIsSpace).reverse

/-- Python `s.replace(pat, rep)` for a non-empty `pat` (the only way the
repository calls it): scan left to right; wherever `pat` starts, emit `rep`
and resume after the occurrence, otherwise copy one character.  `fuel`
bounds the number of scanning steps; `strReplace` instantiates it with the
input length, which suffices because every step consumes at least one input
character. -/
def strReplaceFuel (pat rep : List Char) : Nat → List Char → List Char
  | _, [] => []
  | 0, l => l
  | fuel + 1, c :: rest =>
    if pat ≠ [] ∧ pat.isPrefixOf (c :: rest) then
      rep ++ strReplaceFuel pat rep fuel (List.drop (pat.length - 1) rest)
    else
      c :: strReplaceFuel pat rep fuel rest

/-- Python `s.replace(pat, rep)` (non-empty `pat`). -/
def strReplace (pat rep l : List Char) : List Char :=
  strReplaceFuel pat rep l.length l

/-! ## note_formatter.py: `NoteFormatter.clean_note`

`clean_note` is `re.sub(r'\n\s*\n\s*\n', '\n\n', content)` followed by
`.strip()`.  A full (leftmost, greedy) match of the pattern
`\n\s*\n\s*\n` against a string `w` is exactly: `w` is all whitespace,
starts with `'\n'`, ends with `'\n'`, and contains at least three `'\n'`
(split `w` at its first and last newline to recover the decomposition
`'\n' ++ a ++ '\n' ++ b ++ '\n'` with `a`, `b` whitespace, and conversely).
Python's backtracking engine takes, at each position, the longest such
match, replaces it by `"\n\n"`, and resumes after it. -/

/-- Holds when `w` is entirely whitespace. -/
def allSpace (w : List Char) : Bool := w.all pyIsSpace

/-- Holds when `w` is a full match of the regex `\n\s*\n\s*\n` (see the section
comment for the equivalence with the decomposition). -/
def patMatches (w : List Char) : Bool :=
  allSpace w && decide (3 ≤ w.count '\n') && decide (w.head? = some '\n')
    && decide (w.getLast? = some '\n')

/-- Largest `k ≤ n` such that the first `k` characters of `l` are a full
match of `\n\s*\n\s*\n` (the greedy leftmost match length at this
position). -/
def bestMatch (l : List Char) : Nat → Option Nat
  | 0 => none
  | k + 1 => if patMatches (l.take (k + 1)) then some (k + 1) else bestMatch l k

/-- Greedy match length of `\n\s*\n\s*\n` at the head of `l`, if any. -/
def findMatchLen (l : List Char) : Option Nat := bestMatch l l.length

/-- Model of `re.sub(r'\n\s*\n\s*\n', '\n\n', ·)`: leftmost greedy matches replaced
by `"\n\n"`, scanning resuming after each replaced occurrence.  `fuel` is
instantiated with the input length by `pyReSubBlank`. -/
def reSubFuel : Nat → List Char → List Char
  | 0, l => l
  | fuel + 1, l =>
    match findMatchLen l with
    | some k => '\n' :: '\n' :: reSubFuel fuel (l.drop k)
    | none =>
      match l with
      | [] => []
      | c :: rest => c :: reSubFuel fuel rest

/-- Model of `re.sub(r'\n\s*\n\s*\n', '\n\n', l)`. -/
def pyReSubBlank (l : List Char) : List Char := reSubFuel l.length l

/-- Model of `NoteFormatter.clean_note`: collapse the blank-line runs matched by
`\n\s*\n\s*\n` to `"\n\n"`, then strip leading/trailing whitespace. -/
def clean_note (note_content : List Char) : List Char :=
  pyStrip (pyReSubBlank note_content)

/-! ## note_formatter.py: `NoteFormatter.validate_note` -/

/-- Required section labels for a SOAP note. -/
def soapSections : List (List Char) :=
  ["Subjective".data, "Objective".data, "Assessment".data, "Plan".data]

/-- Required section labels for a referral note. -/
def referralSections : List (List Char) :=
  ["Reason for Referral".data, "Clinical History".data, "Assessment".data]

/-- Required section labels for a discharge note. -/
def dischargeSections : List (List Char) :=
  ["Admission Diagnosis".data, "Hospital Course".data, "Discharge Diagnosis".data]

/-- The `note_type.upper()` dispatch of `validate_note`; `none` models the
`else: return True, []` early return for unrecognized kinds. -/
def requiredSections (note_type : List Char) : Option (List (List Char)) :=
  if pyUpper note_type = "SOAP".data then some soapSections
  else if pyUpper note_type = "REFERRAL".data then some referralSections
  else if pyUpper note_type = "DISCHARGE".data then some dischargeSections
  else none

/-- Model of `NoteFormatter.validate_note`: collect the required sections whose
lower-cased label is not a substring of the lower-cased content; the note is
valid when none is missing. -/
def validate_note (note_content note_type : List Char) :
    Bool × List (List Char) :=
  match requiredSections note_type with
  | none => (true, [])
  | some req =>
    let missing := req.filter fun s =>
      !(pyContains (pyLower note_content) (pyLower s))
    (missing.isEmpty, missing)

/-! ## note_formatter.py: `NoteFormatter.extract_icd_codes`

`re.findall(r'\b[A-Z]\d{2}(?:\.\d{1,4})?\b', content)` followed by
`list(set(...))`.  `\b` is a word boundary (`\w` = letters, digits,
underscore); findall scans left to right and resumes after each match.
The optional greedy group `(?:\.\d{1,4})?` succeeds only when a dot is
followed by 1–4 digits and the digit run stops there at a word boundary;
with 5 or more digits after the dot (or a word character after the run)
every backtracking choice ends inside the digit run, so the group is
dropped and the bare three-character code is matched (the `'.'` after it is
a non-word character, so the trailing `\b` holds). -/

/-- Python `\w` (ASCII fragment; the repository's data is ASCII). -/
def isWordChar (c : Char) : Bool := c.isAlpha || c.isDigit || c = '_'

/-- Trailing word boundary: end of input or a non-word character next. -/
def boundaryAfter : List Char → Bool
  | [] => true
  | c :: _ => !isWordChar c

/-- Greedy match of `[A-Z]\d{2}(?:\.\d{1,4})?\b` at the head of the input
(the leading `\b` is checked by the caller).  Returns the matched token and
the rest of the input. -/
def tryMatchCode : List Char → Option (List Char × List Char)
  | c1 :: c2 :: c3 :: rest =>
    if decide ('A' ≤ c1) && decide (c1 ≤ 'Z') && c2.isDigit && c3.isDigit then
      match rest with
      | '.' :: rest2 =>
        let ds := rest2.takeWhile Char.isDigit
        let rest3 := rest2.dropWhile Char.isDigit
        if decide (1 ≤ ds.length) && decide (ds.length ≤ 4) && boundaryAfter rest3 then
          some (c1 :: c2 :: c3 :: '.' :: ds, rest3)
        else some ([c1, c2, c3], rest)
      | _ => if boundaryAfter rest then some ([c1, c2, c3], rest) else none
    else none
  | _ => none

/-- The findall scan: `prevWord` records whether the previous character is a
word character (initially false: start of string).  After a match the last
emitted character is a digit, hence a word character. -/
def findAllCodes : Nat → Bool → List Char → List (List Char)
  | 0, _, _ => []
  | _ + 1, _, [] => []
  | fuel + 1, prevWord, c :: rest =>
    if prevWord then findAllCodes fuel (isWordChar c) rest
    else
      match tryMatchCode (c :: rest) with
      | some (tok, rest2) => tok :: findAllCodes fuel true rest2
      | none => findAllCodes fuel (isWordChar c) rest

/-- Model of `NoteFormatter.extract_icd_codes`: findall then `list(set(...))`.
Python's set iteration order is unspecified; the embedding fixes the
canonical `List.dedup`. -/
def extract_icd_codes (note_content : List Char) : List (List Char) :=
  (findAllCodes note_content.length false note_content).dedup

/-! ## encryption_manager.py: `EncryptionManager.encrypt` / `decrypt`

The `cryptography.fernet.Fernet` token layer is an external dependency, so
it is modelled abstractly: a `Cipher` is any encrypt/decrypt pair on byte
buffers, and the documented Fernet round-trip guarantee
(`dec (enc b) = some b` for the same key) is carried as a hypothesis where
it is needed.  The repository's own wrapper code — the `str`/`bytes`
dispatch, the UTF-8 encode on the way in and the UTF-8 decode on the way
out — is modelled exactly.  `decrypt` returns `none` where Python raises
(`InvalidToken` from the cipher, `UnicodeDecodeError` from `.decode`). -/

/-- An abstract symmetric cipher on byte buffers (stand-in for a
`Fernet` instance with a fixed key). -/
structure Cipher where
  enc : List Nat → List Nat
  dec : List Nat → Option (List Nat)

/-- The identity cipher: a degenerate `Cipher` satisfying the Fernet
round-trip law, used to evaluate the wrapper at concrete inputs. -/
def idCipher : Cipher := ⟨fun b => b, fun b => some b⟩

/-- UTF-8 encoding of one code point (`str.encode('utf-8')`, per
character). -/
def utf8EncodeChar (n : Nat) : List Nat :=
  if n < 0x80 then [n]
  else if n < 0x800 then [0xC0 + n / 64, 0x80 + n % 64]
  else if n < 0x10000 then
    [0xE0 + n / 4096, 0x80 + n / 64 % 64, 0x80 + n % 64]
  else
    [0xF0 + n / 0x40000, 0x80 + n / 4096 % 64, 0x80 + n / 64 % 64,
      0x80 + n % 64]

/-- Model of `str.encode('utf-8')`. -/
def utf8Encode (s : String) : List Nat :=
  s.data.flatMap fun c => utf8EncodeChar c.toNat

/-- A UTF-8 continuation byte. -/
def isCont (b : Nat) : Bool := decide (0x80 ≤ b) && decide (b ≤ 0xBF)

/-- Strict UTF-8 decoding (`bytes.decode('utf-8')`): rejects stray
continuation bytes, overlong forms, surrogates and values above
`0x10FFFF`, exactly as CPython does.  `fuel` is instantiated with the
input length by `utf8Decode`. -/
def utf8DecodeFuel : Nat → List Nat → Option (List Char)
  | _, [] => some []
  | 0, _ => none
  | fuel + 1, b :: rest =>
    if b < 0x80 then (utf8DecodeFuel fuel rest).map (Char.ofNat b :: ·)
    else if decide (0xC2 ≤ b) && decide (b ≤ 0xDF) then
      match rest with
      | b2 :: rest2 =>
        if isCont b2 then
          (utf8DecodeFuel fuel rest2).map
            (Char.ofNat ((b - 0xC0) * 64 + (b2 - 0x80)) :: ·)
        else none
      | _ => none
    else if decide (0xE0 ≤ b) && decide (b ≤ 0xEF) then
      match rest with
      | b2 :: b3 :: rest3 =>
        let lo2 : Nat := if b = 0xE0 then 0xA0 else 0x80
        let hi2 : Nat := if b = 0xED then 0x9F else 0xBF
        if decide (lo2 ≤ b2) && decide (b2 ≤ hi2) && isCont b3 then
          (utf8DecodeFuel fuel rest3).map
            (Char.ofNat ((b - 0xE0) * 4096 + (b2 - 0x80) * 64 + (b3 - 0x80)) :: ·)
        else none
      | _ => none
    else if decide (0xF0 ≤ b) && decide (b ≤ 0xF4) then
      match rest with
      | b2 :: b3 :: b4 :: rest4 =>
        let lo2 : Nat := if b = 0xF0 then 0x90 else 0x80
        let hi2 : Nat := if b = 0xF4 then 0x8F else 0xBF
        if decide (lo2 ≤ b2) && decide (b2 ≤ hi2) && isCont b3 && isCont b4 then
          (utf8DecodeFuel fuel rest4).map
            (Char.ofNat ((b - 0xF0) * 0x40000 + (b2 - 0x80) * 4096 +
              (b3 - 0x80) * 64 + (b4 - 0x80)) :: ·)
        else none
      | _ => none
    else none

/-- Model of `bytes.decode('utf-8')`, as a `String`; `none` models
`UnicodeDecodeError`. -/
def utf8Decode (l : List Nat) : Option String :=
  (utf8DecodeFuel l.length l).map fun cs => ⟨cs⟩

/-- A Python value that is either `bytes` or `str` (the two input types the
encryption wrapper dispatches on with `isinstance`). -/
inductive PyData where
  | bytes (b : List Nat)
  | str (s : String)

/-- The `isinstance(data, str)` branch of both wrapper methods: a `str` is
UTF-8 encoded, `bytes` are passed through. -/
def PyData.toBytes : PyData → List Nat
  | .bytes b => b
  | .str s => utf8Encode s

/-- Model of `EncryptionManager.encrypt`: encode `str` input to bytes, then apply
the cipher. -/
def EncryptionManager.encrypt (C : Cipher) (data : PyData) : List Nat :=
  C.enc data.toBytes

/-- Model of `EncryptionManager.decrypt`: apply the cipher, then decode the
plaintext bytes as UTF-8, returning a `str`.  `none` models the exceptions
(`InvalidToken`, `UnicodeDecodeError`). -/
def EncryptionManager.decrypt (C : Cipher) (encrypted_data : PyData) :
    Option String :=
  (C.dec encrypted_data.toBytes).bind utf8Decode

/-- Model of `EncryptionManager.decrypt_file` default output path:
`Path(str(input_path).replace('.enc', ''))`, i.e. every occurrence of
`".enc"` anywhere in the path string is removed. -/
def decrypt_file_default_output (input_path : List Char) : List Char :=
  strReplace ".enc".data [] input_path

/-! ## icd_lookup.py: `ICDLookup.suggest_codes` -/

/-- The `self.icd_codes` dictionary (insertion order preserved, as in
Python 3.7+). -/
def icd_codes : List (List Char × List Char) :=
  [("R51".data, "Headache".data),
   ("R50.9".data, "Fever, unspecified".data),
   ("R05".data, "Cough".data),
   ("R06.02".data, "Shortness of breath".data),
   ("R53.83".data, "Fatigue".data),
   ("R11.0".data, "Nausea".data),
   ("R11.2".data, "Nausea with vomiting".data),
   ("R10.9".data, "Abdominal pain, unspecified".data),
   ("R07.9".data, "Chest pain, unspecified".data),
   ("R42".data, "Dizziness and giddiness".data),
   ("R51.9".data, "Headache, unspecified".data),
   ("R68.83".data, "Chills".data),
   ("I10".data, "Essential (primary) hypertension".data),
   ("I11.0".data, "Hypertensive heart disease with heart failure".data),
   ("I25.10".data, "Atherosclerotic heart disease".data),
   ("I48.91".data, "Atrial fibrillation".data),
   ("I50.9".data, "Heart failure, unspecified".data),
   ("I21.9".data, "Acute myocardial infarction".data),
   ("I63.9".data, "Cerebral infarction, unspecified".data),
   ("J06.9".data, "Upper respiratory infection".data),
   ("J02.9".data, "Acute pharyngitis".data),
   ("J20.9".data, "Acute bronchitis".data),
   ("J18.9".data, "Pneumonia, unspecified".data),
   ("J45.909".data, "Asthma, unspecified".data),
   ("J44.0".data, "COPD with acute lower respiratory infection".data),
   ("J44.1".data, "COPD with acute exacerbation".data),
   ("E11.9".data, "Type 2 diabetes mellitus without complications".data),
   ("E11.65".data, "Type 2 diabetes with hyperglycemia".data),
   ("E78.5".data, "Hyperlipidemia".data),
   ("E66.9".data, "Obesity, unspecified".data),
   ("E03.9".data, "Hypothyroidism, unspecified".data),
   ("E05.90".data, "Hyperthyroidism, unspecified".data),
   ("K21.9".data, "Gastro-esophageal reflux disease".data),
   ("K29.70".data, "Gastritis, unspecified".data),
   ("K58.9".data, "Irritable bowel syndrome".data),
   ("K59.00".data, "Constipation, unspecified".data),
   ("K52.9".data, "Gastroenteritis and colitis".data),
   ("M25.50".data, "Pain in joint, unspecified".data),
   ("M79.3".data, "Panniculitis, unspecified".data),
   ("M54.5".data, "Low back pain".data),
   ("M79.1".data, "Myalgia".data),
   ("M25.561".data, "Pain in right knee".data),
   ("M25.562".data, "Pain in left knee".data),
   ("F41.1".data, "Generalized anxiety disorder".data),
   ("F32.9".data, "Major depressive disorder, single episode".data),
   ("F33.1".data, "Major depressive disorder, recurrent".data),
   ("F41.9".data, "Anxiety disorder, unspecified".data),
   ("F43.10".data, "Post-traumatic stress disorder".data),
   ("G43.909".data, "Migraine, unspecified".data),
   ("G89.29".data, "Chronic pain".data),
   ("G47.00".data, "Insomnia, unspecified".data),
   ("B34.9".data, "Viral infection, unspecified".data),
   ("A09".data, "Infectious gastroenteritis".data),
   ("J03.90".data, "Acute tonsillitis, unspecified".data),
   ("L30.9".data, "Dermatitis, unspecified".data),
   ("L50.9".data, "Urticaria, unspecified".data),
   ("L70.0".data, "Acne vulgaris".data),
   ("N39.0".data, "Urinary tract infection".data),
   ("N18.3".data, "Chronic kidney disease, stage 3".data),
   ("N40.0".data, "Benign prostatic hyperplasia".data),
   ("Z00.00".data, "General adult medical examination".data),
   ("Z23".data, "Immunization".data),
   ("Z79.4".data, "Long-term use of insulin".data),
   ("Z79.899".data, "Long-term use of other medications".data)]

/-- Dictionary lookup `self.icd_codes[code]` / `code in self.icd_codes`. -/
def icdCodesGet (code : List Char) : Option (List Char) :=
  (icd_codes.find? fun p => p.1 = code).map fun p => p.2

/-- The fixed `keyword_mapping` table of `suggest_codes` (insertion
order). -/
def keyword_mapping : List (List Char × List (List Char)) :=
  [("headache".data, ["R51".data, "G43.909".data]),
   ("fever".data, ["R50.9".data]),
   ("cough".data, ["R05".data, "J20.9".data]),
   ("diabetes".data, ["E11.9".data, "E11.65".data]),
   ("hypertension".data, ["I10".data]),
   ("pain".data, ["M79.1".data, "G89.29".data]),
   ("chest pain".data, ["R07.9".data]),
   ("back pain".data, ["M54.5".data]),
   ("anxiety".data, ["F41.1".data, "F41.9".data]),
   ("depression".data, ["F32.9".data, "F33.1".data]),
   ("asthma".data, ["J45.909".data]),
   ("pneumonia".data, ["J18.9".data]),
   ("nausea".data, ["R11.0".data]),
   ("vomiting".data, ["R11.2".data]),
   ("dizziness".data, ["R42".data]),
   ("fatigue".data, ["R53.83".data]),
   ("obesity".data, ["E66.9".data]),
   ("infection".data, ["B34.9".data]),
   ("uti".data, ["N39.0".data]),
   ("gastritis".data, ["K29.70".data])]

/-- The raw suggestion pass of `suggest_codes`: for each keyword of the
table present as a substring of the lower-cased text, append its mapped
codes (with their dictionary descriptions) in table order. -/
def rawSuggestions (textLower : List Char) : List (List Char × List Char) :=
  keyword_mapping.flatMap fun p =>
    if pyContains textLower p.1 then
      p.2.filterMap fun c => (icdCodesGet c).map fun d => (c, d)
    else []

/-- The `seen` de-duplication loop of `suggest_codes`: keep the first
occurrence of each code. -/
def dedupeByCode (seen : List (List Char))
    (items : List (List Char × List Char)) : List (List Char × List Char) :=
  match items with
  | [] => []
  | item :: rest =>
    if item.1 ∈ seen then dedupeByCode seen rest
    else item :: dedupeByCode (item.1 :: seen) rest

/-- Model of `ICDLookup.suggest_codes`. -/
def suggest_codes (text : List Char) : List (List Char × List Char) :=
  dedupeByCode [] (rawSuggestions (pyLower text))

/-! ## llm_processing_ollama.py: `LLMProcessor.generate_note`

Network effects are modelled by an environment fixing the outcome of the
two HTTP calls, and by returning the list of network calls the function
issues alongside its result.  `check_connection` is the availability probe
(`GET /api/tags`, 5 s timeout); `connected` is its outcome.  The prompt
text is built exactly as in `_build_prompt` (one string carries its single
apostrophe via `Char.ofNat 39`). -/

/-- ASCII apostrophe. -/
def apostrophe : Char := Char.ofNat 39

/-- The `base_instruction` string of `_build_prompt`. -/
def base_instruction : List Char :=
  ("You are an AI medical documentation assistant.\n" ++
   "Convert the following patient consultation into a structured clinical note.\n" ++
   "Include a likely ICD-10 code based on the described condition.\n" ++
   "Do not make new diagnoses or give treatment advice - only document what is stated.\n" ++
   "Be concise and professional.").data

/-- The SOAP `format_instruction` string of `_build_prompt`. -/
def soapFormatInstruction : List Char :=
  "\nFormat the note as follows:\n\nSubjective:\n[Patient".data ++ apostrophe ::
  ("s reported symptoms, complaints, and medical history]\n\n" ++
   "Objective:\n[Physical examination findings, vital signs, test results]\n\n" ++
   "Assessment:\n[Clinical impression and diagnosis]\n" ++
   "ICD-10 Code: [Code] — [Description]\n\n" ++
   "Plan:\n[Treatment plan, medications, follow-up instructions]\n").data

/-- The referral `format_instruction` string of `_build_prompt`. -/
def referralFormatInstruction : List Char :=
  ("\nFormat the note as follows:\n\n" ++
   "Patient Information:\n[Name, age, relevant demographics]\n\n" ++
   "Reason for Referral:\n[Primary concern requiring specialist consultation]\n\n" ++
   "Clinical History:\n[Relevant medical history and current condition]\n\n" ++
   "Assessment:\n[Current diagnosis]\n" ++
   "ICD-10 Code: [Code] — [Description]\n\n" ++
   "Requested Action:\n[Specific evaluation or treatment needed from specialist]\n").data

/-- The discharge `format_instruction` string of `_build_prompt`. -/
def dischargeFormatInstruction : List Char :=
  ("\nFormat the note as follows:\n\n" ++
   "Patient Summary:\n[Brief overview of hospital stay]\n\n" ++
   "Admission Diagnosis:\n[Reason for admission]\n\n" ++
   "Hospital Course:\n[Treatment provided and patient progress]\n\n" ++
   "Discharge Diagnosis:\n[Final diagnosis]\n" ++
   "ICD-10 Code: [Code] — [Description]\n\n" ++
   "Discharge Instructions:\n[Medications, activity restrictions, follow-up care]\n\n" ++
   "Follow-up:\n[Appointments and monitoring needed]\n").data

/-- Model of `LLMProcessor._build_prompt`. -/
def LLMProcessor.build_prompt (transcription note_type : List Char) : List Char :=
  let format_instruction :=
    if pyUpper note_type = "SOAP".data then soapFormatInstruction
    else if pyUpper note_type = "REFERRAL".data then referralFormatInstruction
    else if pyUpper note_type = "DISCHARGE".data then dischargeFormatInstruction
    else "\n\nProvide a clear, structured clinical note.".data
  base_instruction ++ '\n' :: format_instruction ++
    "\n\nPatient Consultation:\n".data ++ transcription ++
    "\n\nGenerate the clinical note now:".data

/-- The literal substitution marker looked for in a supplied template. -/
def marker : List Char := "{transcription}".data

/-- Lines 47–50 of `generate_note`: with a template, every literal
occurrence of the marker is replaced by the transcription
(`template.replace("{transcription}", transcription)`); without one the
kind-specific built-in prompt is used. -/
def LLMProcessor.promptFor (transcription note_type : List Char)
    (template : Option (List Char)) : List Char :=
  match template with
  | some tpl => strReplace marker transcription tpl
  | none => LLMProcessor.build_prompt transcription note_type

/-- A network call issued by `generate_note`: the availability probe
(`GET /api/tags`) or the generation request (`POST /api/generate` with its
timeout in seconds and its prompt payload). -/
inductive NetCall where
  | probe
  | post (timeoutSecs : Nat) (prompt : List Char)
deriving DecidableEq

/-- Outcome of the `requests.post` call, fixed by the environment. -/
inductive PostOutcome where
  | timeout
  | exn
  | status (code : Nat) (responseField : Option (List Char))

/-- Environment for one `generate_note` run: whether the availability
probe succeeds, and what the generation request would return. -/
structure OllamaEnv where
  connected : Bool
  postOutcome : PostOutcome

/-- Model of `LLMProcessor.generate_note`: returns the Python result (`none` models
`None`) together with the list of network calls issued, in order. -/
def LLMProcessor.generate_note (env : OllamaEnv)
    (transcription note_type : List Char) (template : Option (List Char)) :
    Option (List Char) × List NetCall :=
  if !env.connected then (none, [NetCall.probe])
  else
    let prompt := LLMProcessor.promptFor transcription note_type template
    let result :=
      match env.postOutcome with
      | .timeout => none
      | .exn => none
      | .status code body =>
        if code = 200 then some (pyStrip (body.getD [])) else none
    (result, [NetCall.probe, NetCall.post 120 prompt])

/-! ## export_manager.py: `ExportManager.export_encrypted`

The file system is modelled as the set of paths present on disk.
`export_to_pdf` / `export_to_docx` catch their own exceptions and write
their output file only at the final `doc.save` / `doc.build`, so a render
that returns `False` is modelled as leaving no file; `encrypt_file` writes
`str(path) + '.enc'` and may raise (key or file I/O), which the `try` of
`export_encrypted` turns into a `None` return. -/

/-- File-system state: the set of paths present on disk. -/
abbrev FS := List (List Char)

/-- Create (or overwrite) a file. -/
def insertPath (p : List Char) (fs : FS) : FS := if p ∈ fs then fs else p :: fs

/-- Model of `Path.unlink`. -/
def removePath (p : List Char) (fs : FS) : FS := fs.erase p

/-- Split a path after its last `'/'`: directory part (slash included) and
final component. -/
def splitLastSlash (p : List Char) : List Char × List Char :=
  ((p.reverse.dropWhile fun c => !(c = '/')).reverse,
   (p.reverse.takeWhile fun c => !(c = '/')).reverse)

/-- The stem of a file name: everything before the last dot, except that a
name whose only dot is the leading one has no suffix to strip. -/
def stemOf (name : List Char) : List Char :=
  let revAfter := name.reverse.takeWhile fun c => !(c = '.')
  if revAfter.length = name.length then name
  else
    let stem := name.take (name.length - revAfter.length - 1)
    if stem = [] then name else stem

/-- Model of `Path(p).with_suffix('.' + ext)`. -/
def withSuffix (p ext : List Char) : List Char :=
  (splitLastSlash p).1 ++ stemOf (splitLastSlash p).2 ++ '.' :: ext

/-- Model of `ExportManager.export_encrypted` as a transformer of the file-system
state, returning the new state and the Python result (`none` models
`None`).  `renderOk` is the boolean returned by the chosen render helper;
`encryptOk` is whether `encrypt_file` completes without raising. -/
def ExportManager.export_encrypted (fs : FS) (output_path fmt : List Char)
    (renderOk encryptOk : Bool) : FS × Option (List Char) :=
  let temp_path := withSuffix output_path fmt
  if fmt = "pdf".data ∨ fmt = "docx".data then
    if !renderOk then (fs, none)
    else
      let fs1 := insertPath temp_path fs
      if !encryptOk then (fs1, none)
      else
        let encrypted_path := temp_path ++ ".enc".data
        let fs2 := insertPath encrypted_path fs1
        let fs3 := if temp_path ∈ fs2 then removePath temp_path fs2 else fs2
        (fs3, some encrypted_path)
  else (fs, none)

/-! ## note_formatter.py: the export formatting pipeline
(`format_for_export`, the per-kind headers, `add_signature`)

`datetime.now()` is modelled by explicit date/time string parameters.
`patient_info` is an optional dictionary (`none` models `None` or an empty,
falsy dict); `doctor_info` is modelled as a present dictionary, since
`add_signature` calls `.get` on it unconditionally (a `None` would raise
`AttributeError` before any of the behaviour described here). -/

/-- The `patient_info` dictionary: each key optionally present. -/
structure PatientInfo where
  name : Option (List Char)
  age : Option (List Char)
  gender : Option (List Char)
  contact : Option (List Char)

/-- The `doctor_info` dictionary: each key optionally present. -/
structure DoctorInfo where
  name : Option (List Char)
  email : Option (List Char)

/-- Python truthiness of `d.get(k)` for a string-valued key: present and
non-empty. -/
def truthy : Option (List Char) → Bool
  | none => false
  | some s => !s.isEmpty

/-- Model of `c * n` string repetition. -/
def pyRepeat (c : Char) (n : Nat) : List Char := List.replicate n c

/-- Model of `str.center(width)` (for the even width 70 used here, CPython's
left padding is exactly `(width - len) / 2`). -/
def pyCenter (s : List Char) (width : Nat) : List Char :=
  if width ≤ s.length then s
  else
    let marg := width - s.length
    List.replicate (marg / 2) ' ' ++ s ++ List.replicate (marg - marg / 2) ' '

/-- Model of `"\n".join(lines)`. -/
def joinLines (lines : List (List Char)) : List Char :=
  List.intercalate "\n".data lines

/-- Model of `NoteFormatter._create_header`. -/
def NoteFormatter.create_header (note_type : List Char)
    (patient_info : Option PatientInfo) (doctor_info : Option DoctorInfo)
    (dateStr timeStr : List Char) : List Char :=
  joinLines
    ([pyRepeat '=' 70, pyCenter note_type 70, pyRepeat '=' 70, [],
      "Date: ".data ++ dateStr, "Time: ".data ++ timeStr, []]
     ++ (match patient_info with
         | none => []
         | some p =>
           ["PATIENT INFORMATION:".data,
            "Name: ".data ++ p.name.getD "N/A".data]
           ++ (if truthy p.age then
                ["Age: ".data ++ p.age.getD [] ++ " years".data] else [])
           ++ (if truthy p.gender then
                ["Gender: ".data ++ p.gender.getD []] else [])
           ++ (if truthy p.contact then
                ["Contact: ".data ++ p.contact.getD []] else [])
           ++ [[]])
     ++ (match doctor_info with
         | none => []
         | some d =>
           ["PROVIDER INFORMATION:".data,
            "Doctor: ".data ++ d.name.getD "N/A".data]
           ++ (if truthy d.email then
                ["Email: ".data ++ d.email.getD []] else [])
           ++ [[]])
     ++ [pyRepeat '-' 70, []])

/-- Model of `NoteFormatter.format_soap_note`. -/
def NoteFormatter.format_soap_note (content : List Char)
    (patient_info : Option PatientInfo) (doctor_info : Option DoctorInfo)
    (dateStr timeStr : List Char) : List Char :=
  NoteFormatter.create_header "SOAP Note".data patient_info doctor_info
    dateStr timeStr ++ "\n\n".data ++ content

/-- Model of `NoteFormatter.format_referral_note`. -/
def NoteFormatter.format_referral_note (content : List Char)
    (patient_info : Option PatientInfo) (doctor_info : Option DoctorInfo)
    (dateStr timeStr : List Char) : List Char :=
  NoteFormatter.create_header "Referral Note".data patient_info doctor_info
    dateStr timeStr ++ "\n\n".data ++ content

/-- Model of `NoteFormatter.format_discharge_note`. -/
def NoteFormatter.format_discharge_note (content : List Char)
    (patient_info : Option PatientInfo) (doctor_info : Option DoctorInfo)
    (dateStr timeStr : List Char) : List Char :=
  NoteFormatter.create_header "Discharge Summary".data patient_info doctor_info
    dateStr timeStr ++ "\n\n".data ++ content

/-- Model of `NoteFormatter.add_signature`: append the signature block. -/
def NoteFormatter.add_signature (note_content : List Char)
    (doctor_info : DoctorInfo) (sigDateTime : List Char) : List Char :=
  note_content ++ '\n' :: joinLines
    [[], [], pyRepeat '-' 70, "Electronically signed by:".data,
     "Dr. ".data ++ doctor_info.name.getD "Unknown".data,
     "Date: ".data ++ sigDateTime, pyRepeat '-' 70]

/-- Model of `NoteFormatter.format_for_export`: kind-specific header (none for an
unrecognized kind), then `clean_note`, then `add_signature`. -/
def NoteFormatter.format_for_export (note_content note_type : List Char)
    (patient_info : Option PatientInfo) (doctor_info : DoctorInfo)
    (dateStr timeStr sigDateTime : List Char) : List Char :=
  let formatted :=
    if pyUpper note_type = "SOAP".data then
      NoteFormatter.format_soap_note note_content patient_info
        (some doctor_info) dateStr timeStr
    else if pyUpper note_type = "REFERRAL".data then
      NoteFormatter.format_referral_note note_content patient_info
        (some doctor_info) dateStr timeStr
    else if pyUpper note_type = "DISCHARGE".data then
      NoteFormatter.format_discharge_note note_content patient_info
        (some doctor_info) dateStr timeStr
    else note_content
  NoteFormatter.add_signature (clean_note formatted) doctor_info sigDateTime

/-! ## Derived predicates used by the verification -/

/-- No contiguous substring of `y` is a full match of `\n\s*\n\s*\n`. -/
def GoodBlank (y : List Char) : Prop := ∀ w, w <:+: y → patMatches w = false

/-- The prefix of `w` up to (and including) its last newline. -/
def truncAtLastNl (w : List Char) : List Char :=
  (w.reverse.dropWhile fun c => !(c = '\n')).reverse

/-- Holds when `pat` has no nontrivial border (no proper nonempty prefix that is also
a suffix); occurrences of such a pattern cannot overlap. -/
def noBorder (pat : List Char) : Bool :=
  (List.range pat.length).all fun i =>
    decide (i = 0) || !(pat.drop i == pat.take (pat.length - i))

/-! ## Verification -/

/-- Elements produced by the de-duplication loop are never in `seen`. -/
theorem dedupeByCode_not_seen (items : List (List Char × List Char)) :
    ∀ seen, ∀ c ∈ (dedupeByCode seen items).map Prod.fst, c ∉ seen := by
  induction items with
  | nil => intro seen c hc; simp [dedupeByCode] at hc
  | cons item rest ih =>
    intro seen c hc
    by_cases hmem : item.1 ∈ seen
    · rw [dedupeByCode, if_pos hmem] at hc
      exact ih seen c hc
    · rw [dedupeByCode, if_neg hmem] at hc
      simp only [List.map_cons, List.mem_cons] at hc
      rcases hc with rfl | hc
      · exact hmem
      · intro hseen
        exact ih (item.1 :: seen) c hc (List.mem_cons_of_mem _ hseen)

/-- The de-duplication loop emits each code at most once. -/
theorem dedupeByCode_nodup (items : List (List Char × List Char)) :
    ∀ seen, ((dedupeByCode seen items).map Prod.fst).Nodup := by
  induction items with
  | nil => intro seen; simp [dedupeByCode]
  | cons item rest ih =>
    intro seen
    by_cases hmem : item.1 ∈ seen
    · rw [dedupeByCode, if_pos hmem]; exact ih seen
    · rw [dedupeByCode, if_neg hmem]
      simp only [List.map_cons, List.nodup_cons]
      refine ⟨fun hc => ?_, ih _⟩
      exact dedupeByCode_not_seen rest (item.1 :: seen) item.1 hc
        (List.mem_cons_self _ _)

/-- C6: `suggest_codes` is deterministic over the fixed keyword table: on
"patient reports headache and fever" it returns the codes of the
"headache" keyword and then of the "fever" keyword, in table order, with
their dictionary descriptions; and for every input text each code appears
at most once in the output. -/
theorem suggest_codes_spec :
    suggest_codes "patient reports headache and fever".data =
      [("R51".data, "Headache".data),
       ("G43.909".data, "Migraine, unspecified".data),
       ("R50.9".data, "Fever, unspecified".data)] ∧
    ∀ text : List Char, ((suggest_codes text).map Prod.fst).Nodup :=
  ⟨by decide, fun _ => dedupeByCode_nodup _ _⟩

/-- C7: `extract_icd_codes` scans for `\b[A-Z]\d{2}(?:\.\d{1,4})?\b`
tokens and removes duplicates: on "Assessment: I10 hypertension, follow up
R51" it finds exactly the codes I10 and R51, and its output never contains
a duplicate. -/
theorem extract_icd_codes_spec :
    extract_icd_codes "Assessment: I10 hypertension, follow up R51".data =
      ["I10".data, "R51".data] ∧
    ∀ content : List Char, (extract_icd_codes content).Nodup :=
  ⟨by decide, fun _ => List.nodup_dedup _⟩

/-- C1: evaluation of `export_encrypted` at the input that violates the
claim.  With a succeeding render and a failing `encrypt_file`, the function
returns `None` (the error is surfaced) but the plaintext temporary artifact
`note.pdf` is still on disk — the cleanup `temp_path.unlink()` is only
reached on the success path.  For contrast: a failed render leaves no file
and attempts no encryption, and a fully successful export does delete the
temporary file. -/
theorem export_encrypted_plaintext_leak :
    (ExportManager.export_encrypted [] "note.pdf".data "pdf".data true false).2
      = none ∧
    "note.pdf".data ∈
      (ExportManager.export_encrypted [] "note.pdf".data "pdf".data true false).1 ∧
    ExportManager.export_encrypted [] "note.pdf".data "pdf".data false true
      = ([], none) ∧
    ExportManager.export_encrypted [] "note.pdf".data "pdf".data true true
      = (["note.pdf.enc".data], some "note.pdf.enc".data) := by decide

/-- C2 counterexample: the byte buffer `[255]` round-trips through the
cipher layer, but the repository's `decrypt` then fails decoding it as
UTF-8 (Python raises `UnicodeDecodeError`), so `Decrypt(Encrypt(b))` does
not return the original bytes for every byte buffer `b`. -/
theorem decrypt_encrypt_non_utf8_cx :
    idCipher.dec (idCipher.enc [255]) = some [255] ∧
    EncryptionManager.decrypt idCipher
      (PyData.bytes (EncryptionManager.encrypt idCipher (PyData.bytes [255])))
      = none := by decide

/-- C2 (amended): for every cipher satisfying the Fernet round-trip law
and every byte buffer `b` that is valid UTF-8, `Decrypt(Encrypt(b))`
returns the string whose UTF-8 encoding is `b` (the plaintext bytes,
as decoded text, not as bytes). -/
theorem decrypt_encrypt_roundtrip_utf8 (C : Cipher)
    (hC : ∀ b, C.dec (C.enc b) = some b) (b : List Nat) (s : String)
    (hs : utf8Decode b = some s) :
    EncryptionManager.decrypt C
      (PyData.bytes (EncryptionManager.encrypt C (PyData.bytes b))) = some s := by
  simp [EncryptionManager.decrypt, EncryptionManager.encrypt, PyData.toBytes,
    hC, hs]

/-- Witness for the amended C2 theorem at the concrete buffer
`[104, 105]` (UTF-8 for "hi") and the identity cipher. -/
theorem decrypt_encrypt_roundtrip_utf8_witness :
    utf8Decode [104, 105] = some "hi" ∧
    EncryptionManager.decrypt idCipher
      (PyData.bytes (EncryptionManager.encrypt idCipher
        (PyData.bytes [104, 105]))) = some "hi" :=
  ⟨by decide,
   decrypt_encrypt_roundtrip_utf8 idCipher (fun _ => rfl) [104, 105] "hi"
     (by decide)⟩

/-- C5: if the availability probe fails, `generate_note` returns `None`
having issued only the probe — the 120-second generation request is never
attempted; and whenever a generation request appears among the issued
calls, the availability check passed. -/
theorem generate_note_availability_gate :
    (∀ (env : OllamaEnv) (t k : List Char) (tpl : Option (List Char)),
      env.connected = false →
      LLMProcessor.generate_note env t k tpl = (none, [NetCall.probe])) ∧
    (∀ (env : OllamaEnv) (t k : List Char) (tpl : Option (List Char))
        (tmo : Nat) (p : List Char),
      NetCall.post tmo p ∈ (LLMProcessor.generate_note env t k tpl).2 →
      env.connected = true) := by
  constructor
  · intro env t k tpl h
    simp [LLMProcessor.generate_note, h]
  · intro env t k tpl tmo p hmem
    by_cases h : env.connected = true
    · exact h
    · rw [Bool.not_eq_true] at h
      simp [LLMProcessor.generate_note, h] at hmem

/-- Witness for C5 at a concrete disconnected environment. -/
theorem generate_note_availability_gate_witness :
    (OllamaEnv.mk false PostOutcome.timeout).connected = false ∧
    LLMProcessor.generate_note (OllamaEnv.mk false PostOutcome.timeout)
      "t".data "SOAP".data none = (none, [NetCall.probe]) :=
  ⟨rfl, generate_note_availability_gate.1 _ _ _ _ rfl⟩

/-- C10: `format_for_export` always appends the signature block last,
after cleaning: the result is always `add_signature` of `clean_note` of
the kind-formatted body; and for a kind other than SOAP, Referral or
Discharge (case-insensitively) no header is prepended — the raw content is
cleaned and signed directly. -/
theorem format_for_export_spec :
    (∀ (content ty : List Char) (p : Option PatientInfo) (d : DoctorInfo)
        (ds ts ss : List Char),
      pyUpper ty ≠ "SOAP".data → pyUpper ty ≠ "REFERRAL".data →
      pyUpper ty ≠ "DISCHARGE".data →
      NoteFormatter.format_for_export content ty p d ds ts ss =
        NoteFormatter.add_signature (clean_note content) d ss) ∧
    (∀ (content ty : List Char) (p : Option PatientInfo) (d : DoctorInfo)
        (ds ts ss : List Char), ∃ body,
      NoteFormatter.format_for_export content ty p d ds ts ss =
        NoteFormatter.add_signature (clean_note body) d ss) := by
  constructor
  · intro content ty p d ds ts ss h1 h2 h3
    simp [NoteFormatter.format_for_export, h1, h2, h3]
  · intro content ty p d ds ts ss
    exact ⟨_, rfl⟩

/-- Witness for C10 at the unrecognized kind "Progress". -/
theorem format_for_export_spec_witness :
    pyUpper "Progress".data ≠ "SOAP".data ∧
    NoteFormatter.format_for_export "x".data "Progress".data none
      (DoctorInfo.mk none none) "d".data "t".data "s".data =
      NoteFormatter.add_signature (clean_note "x".data)
        (DoctorInfo.mk none none) "s".data :=
  ⟨by decide,
   format_for_export_spec.1 _ _ _ _ _ _ _ (by decide) (by decide) (by decide)⟩

/-- C4: on a SOAP note, `validate_note` returns `(true, [])` exactly when
all four section labels occur case-insensitively; removing one label (the
other three still present) yields `(false, [that label])`. -/
theorem validate_note_soap_spec :
    (∀ content : List Char,
      (∀ s ∈ soapSections, pyContains (pyLower content) (pyLower s) = true) →
      validate_note content "SOAP".data = (true, [])) ∧
    (∀ (content s : List Char), s ∈ soapSections →
      pyContains (pyLower content) (pyLower s) = false →
      (∀ s2 ∈ soapSections, s2 ≠ s →
        pyContains (pyLower content) (pyLower s2) = true) →
      validate_note content "SOAP".data = (false, [s])) := by
  have hreq : requiredSections "SOAP".data = some soapSections := by decide
  constructor
  · intro content hall
    have hfilter : (soapSections.filter fun s =>
        !(pyContains (pyLower content) (pyLower s))) = [] := by
      rw [List.filter_eq_nil_iff]
      intro s hs
      simp [hall s hs]
    simp [validate_note, hreq, hfilter]
  · intro content s hs hmiss hothers
    simp only [soapSections, List.mem_cons, List.not_mem_nil, or_false] at hs
    have hval : validate_note content "SOAP".data =
        (((soapSections.filter fun s =>
            !(pyContains (pyLower content) (pyLower s)))).isEmpty,
          soapSections.filter fun s =>
            !(pyContains (pyLower content) (pyLower s))) := by
      simp [validate_note, hreq]
    rcases hs with rfl | rfl | rfl | rfl
    · have h2 := hothers "Objective".data (by simp [soapSections]) (by decide)
      have h3 := hothers "Assessment".data (by simp [soapSections]) (by decide)
      have h4 := hothers "Plan".data (by simp [soapSections]) (by decide)
      rw [hval]
      simp [soapSections, List.filter, hmiss, h2, h3, h4]
    · have h1 := hothers "Subjective".data (by simp [soapSections]) (by decide)
      have h3 := hothers "Assessment".data (by simp [soapSections]) (by decide)
      have h4 := hothers "Plan".data (by simp [soapSections]) (by decide)
      rw [hval]
      simp [soapSections, List.filter, hmiss, h1, h3, h4]
    · have h1 := hothers "Subjective".data (by simp [soapSections]) (by decide)
      have h2 := hothers "Objective".data (by simp [soapSections]) (by decide)
      have h4 := hothers "Plan".data (by simp [soapSections]) (by decide)
      rw [hval]
      simp [soapSections, List.filter, hmiss, h1, h2, h4]
    · have h1 := hothers "Subjective".data (by simp [soapSections]) (by decide)
      have h2 := hothers "Objective".data (by simp [soapSections]) (by decide)
      have h3 := hothers "Assessment".data (by simp [soapSections]) (by decide)
      rw [hval]
      simp [soapSections, List.filter, hmiss, h1, h2, h3]

/-- Witness for C4: a content with all four labels validates; dropping
"Plan" flags exactly that label. -/
theorem validate_note_soap_witness :
    validate_note "Subjective: a Objective: b Assessment: c Plan: d".data
      "SOAP".data = (true, []) ∧
    validate_note "Subjective: a Objective: b Assessment: c".data
      "SOAP".data = (false, ["Plan".data]) :=
  ⟨validate_note_soap_spec.1 _ (by decide),
   validate_note_soap_spec.2 _ _ (by decide) (by decide) (by decide)⟩

/-! ### `str.replace` theory (used for the template marker and `".enc"`) -/

/-- The fuel argument of `strReplaceFuel` is irrelevant once it dominates
the input length. -/
theorem strReplaceFuel_congr (pat rep : List Char) :
    ∀ (f1 : Nat) (l : List Char) (f2 : Nat), l.length ≤ f1 → l.length ≤ f2 →
    strReplaceFuel pat rep f1 l = strReplaceFuel pat rep f2 l := by
  intro f1
  induction f1 with
  | zero =>
    intro l f2 h1 _
    have hl : l = [] := List.eq_nil_of_length_eq_zero (Nat.le_zero.mp h1)
    subst hl
    cases f2 <;> rfl
  | succ g1 ih =>
    intro l f2 h1 h2
    cases l with
    | nil => cases f2 <;> rfl
    | cons c rest =>
      cases f2 with
      | zero => simp at h2
      | succ g2 =>
        simp only [strReplaceFuel]
        by_cases hc : pat ≠ [] ∧ pat.isPrefixOf (c :: rest)
        · rw [if_pos hc, if_pos hc]
          have hlen : (List.drop (pat.length - 1) rest).length ≤ g1 := by
            rw [List.length_drop]
            simp only [List.length_cons] at h1
            omega
          have hlen2 : (List.drop (pat.length - 1) rest).length ≤ g2 := by
            rw [List.length_drop]
            simp only [List.length_cons] at h2
            omega
          rw [ih _ _ hlen hlen2]
        · rw [if_neg hc, if_neg hc]
          simp only [List.length_cons] at h1 h2
          rw [ih rest g2 (by omega) (by omega)]

/-- Pass-through: when `pat` occurs nowhere in `l`, `replace` returns `l`
unchanged (any fuel). -/
theorem strReplaceFuel_no_occ (pat rep : List Char) :
    ∀ (fuel : Nat) (l : List Char), ¬(pat <:+: l) →
    strReplaceFuel pat rep fuel l = l := by
  intro fuel
  induction fuel with
  | zero => intro l _; cases l <;> rfl
  | succ g ih =>
    intro l hno
    cases l with
    | nil => rfl
    | cons c rest =>
      have hc : ¬(pat ≠ [] ∧ pat.isPrefixOf (c :: rest)) := by
        rintro ⟨_, hp⟩
        obtain ⟨t, ht⟩ := List.isPrefixOf_iff_prefix.mp hp
        exact hno ⟨[], t, by simpa using ht⟩
      simp only [strReplaceFuel, if_neg hc]
      have : ¬(pat <:+: rest) := by
        rintro ⟨s, t, hst⟩
        exact hno ⟨c :: s, t, by simp [← hst]⟩
      rw [ih rest this]

/-- Pass-through for the wrapper. -/
theorem strReplace_no_occ (pat rep l : List Char) (h : ¬(pat <:+: l)) :
    strReplace pat rep l = l := strReplaceFuel_no_occ pat rep l.length l h

/-- An occurrence of `pat` at the head is replaced, and scanning resumes
right after it. -/
theorem strReplace_head_occ (pat rep b : List Char) (hne : pat ≠ []) :
    strReplace pat rep (pat ++ b) = rep ++ strReplace pat rep b := by
  cases hp : pat with
  | nil => exact absurd hp hne
  | cons p0 ptail =>
    subst hp
    have hcond : (p0 :: ptail) ≠ [] ∧
        (p0 :: ptail).isPrefixOf (p0 :: (ptail ++ b)) := by
      refine ⟨by simp, List.isPrefixOf_iff_prefix.mpr ?_⟩
      exact ⟨b, by simp⟩
    have h1 : strReplace (p0 :: ptail) rep ((p0 :: ptail) ++ b)
        = strReplaceFuel (p0 :: ptail) rep ((ptail ++ b).length + 1)
            (p0 :: (ptail ++ b)) := rfl
    rw [h1]
    simp only [strReplaceFuel, if_pos hcond]
    have hdrop : List.drop ((p0 :: ptail).length - 1) (ptail ++ b) = b := by
      simp only [List.length_cons, Nat.add_sub_cancel]
      exact List.drop_left ptail b
    simp only [List.length_cons, Nat.add_sub_cancel] at hdrop
    simp only [List.length_cons, Nat.add_sub_cancel]
    rw [hdrop]
    congr 1
    exact strReplaceFuel_congr _ _ _ b _
      (by rw [List.length_append]; omega) (le_refl _)

/-- A single copying step of `replace` where `pat` does not start at the
head. -/
theorem strReplace_cons_no_match (pat rep : List Char) (c : Char)
    (rest : List Char) (h : ¬ pat.isPrefixOf (c :: rest) = true) :
    strReplace pat rep (c :: rest) = c :: strReplace pat rep rest := by
  show strReplaceFuel _ _ (rest.length + 1) (c :: rest) = _
  have hc : ¬(pat ≠ [] ∧ pat.isPrefixOf (c :: rest)) := fun hcc => h hcc.2
  simp only [strReplaceFuel, if_neg hc]
  rfl

/-- A border-free pattern cannot start inside `a` and reach into the
occurrence written after `a`. -/
theorem noBorder_no_middle_start (pat a rest : List Char)
    (hnb : noBorder pat = true) (ha : a ≠ []) (hnoa : ¬(pat <:+: a)) :
    ¬ pat.isPrefixOf (a ++ pat ++ rest) = true := by
  intro hp
  have hpre := List.isPrefixOf_iff_prefix.mp hp
  by_cases hlen : pat.length ≤ a.length
  · have heq : pat = List.take pat.length (a ++ (pat ++ rest)) := by
      have := List.prefix_iff_eq_take.mp (by simpa using hpre)
      simpa using this
    rw [List.take_append_of_le_length hlen] at heq
    have h2 : pat ++ List.drop pat.length a = a := by
      conv_rhs => rw [← List.take_append_drop pat.length a, ← heq]
    exact hnoa ⟨[], List.drop pat.length a, by rw [List.nil_append, h2]⟩
  · push_neg at hlen
    have htake : pat = List.take pat.length (a ++ (pat ++ rest)) := by
      have := List.prefix_iff_eq_take.mp (by simpa using hpre)
      simpa using this
    have hsplit : pat = a ++ List.take (pat.length - a.length) pat := by
      have h1 : pat.length = a.length + (pat.length - a.length) := by omega
      rw [h1, List.take_append] at htake
      rw [List.take_append_of_le_length (Nat.sub_le _ _)] at htake
      exact htake
    have hdt : pat.drop a.length = List.take (pat.length - a.length) pat := by
      conv_lhs => rw [hsplit]
      exact List.drop_left a _
    have := List.all_eq_true.mp hnb a.length
      (by
        apply List.mem_range.mpr
        have : a.length < pat.length := hlen
        exact this)
    simp only [Bool.or_eq_true, decide_eq_true_eq, Bool.not_eq_true'] at this
    rcases this with h0 | hne2
    · exact ha (List.eq_nil_of_length_eq_zero h0)
    · rw [beq_eq_false_iff_ne] at hne2
      exact hne2 hdt

/-- Every occurrence of a non-empty, border-free pattern is replaced:
splitting the input at an occurrence (first occurrence of the remaining
input), the prefix is copied verbatim, the occurrence becomes `rep`, and
replacement continues on the tail. -/
theorem strReplace_append_occ (pat rep : List Char) (hne : pat ≠ [])
    (hnb : noBorder pat = true) :
    ∀ (a b : List Char), ¬(pat <:+: a) →
    strReplace pat rep (a ++ pat ++ b) = a ++ rep ++ strReplace pat rep b := by
  intro a
  induction a with
  | nil =>
    intro b _
    simpa using strReplace_head_occ pat rep b hne
  | cons c a' ih =>
    intro b hno
    have hstep : ¬ pat.isPrefixOf ((c :: a') ++ pat ++ b) = true :=
      noBorder_no_middle_start pat (c :: a') b hnb (by simp) hno
    have hno' : ¬(pat <:+: a') := by
      rintro ⟨s, t, hst⟩
      exact hno ⟨c :: s, t, by simp [← hst]⟩
    calc strReplace pat rep ((c :: a') ++ pat ++ b)
        = c :: strReplace pat rep (a' ++ pat ++ b) := by
          simpa using strReplace_cons_no_match pat rep c (a' ++ pat ++ b)
            (by simpa using hstep)
      _ = (c :: a') ++ rep ++ strReplace pat rep b := by
          rw [ih b hno']; simp

/-- C8: with a supplied template, the prompt is the template with every
literal occurrence of the marker replaced by the transcription and nothing
else changed — splitting the template at an occurrence of the marker, the
marker-free prefix is copied verbatim, the marker becomes the
transcription, and replacement continues on the tail; and a template
containing no occurrence of the marker is used unchanged as the prompt
(non-fatal pass-through). -/
theorem template_substitution_spec :
    (∀ tpl t k : List Char, ¬(marker <:+: tpl) →
      LLMProcessor.promptFor t k (some tpl) = tpl) ∧
    (∀ a b t k : List Char, ¬(marker <:+: a) →
      LLMProcessor.promptFor t k (some (a ++ marker ++ b)) =
        a ++ t ++ strReplace marker t b) := by
  constructor
  · intro tpl t k h
    exact strReplace_no_occ marker t tpl h
  · intro a b t k h
    exact strReplace_append_occ marker t (by decide) (by decide) a b h

/-- Witness for C8: a marker-free template passes through unchanged, and a
template with one marker occurrence gets exactly that occurrence
substituted. -/
theorem template_substitution_spec_witness :
    (¬(marker <:+: "Summarize the visit.".data) ∧
      LLMProcessor.promptFor "T".data "SOAP".data
        (some "Summarize the visit.".data) = "Summarize the visit.".data) ∧
    LLMProcessor.promptFor "T".data "SOAP".data
      (some ("Note: ".data ++ marker ++ " end".data)) =
      "Note: ".data ++ "T".data ++ strReplace marker "T".data " end".data :=
  ⟨⟨by decide, template_substitution_spec.1 _ _ _ (by decide)⟩,
   template_substitution_spec.2 _ _ _ _ (by decide)⟩

/-- C9: the default output path of `decrypt_file` removes every occurrence
of the substring ".enc" from the whole input path string (splitting the
path at an occurrence, the ".enc"-free prefix is kept and removal
continues on the tail), not only a trailing ".enc" suffix: an ".enc" in a
directory name or in the middle of the file name is removed too. -/
theorem decrypt_file_default_output_spec :
    (∀ a b : List Char, ¬(".enc".data <:+: a) →
      decrypt_file_default_output (a ++ ".enc".data ++ b) =
        a ++ decrypt_file_default_output b) ∧
    decrypt_file_default_output "dir.enc/file.enc.txt".data =
      "dir/file.txt".data ∧
    decrypt_file_default_output "notes.pdf.enc".data = "notes.pdf".data := by
  refine ⟨fun a b h => ?_, by decide, by decide⟩
  have := strReplace_append_occ ".enc".data [] (by decide) (by decide) a b h
  simpa [decrypt_file_default_output] using this

/-- Witness for C9 at a concrete mid-path occurrence. -/
theorem decrypt_file_default_output_witness :
    ¬(".enc".data <:+: "report".data) ∧
    decrypt_file_default_output ("report".data ++ ".enc".data ++ ".pdf".data)
      = "report".data ++ decrypt_file_default_output ".pdf".data :=
  ⟨by decide, decrypt_file_default_output_spec.1 _ _ (by decide)⟩

/-! ### `clean_note` theory: idempotence of the blank-line rewrite -/

/-- Unpacking of a full pattern match. -/
theorem patMatches_facts {w : List Char} (h : patMatches w = true) :
    allSpace w = true ∧ 3 ≤ w.count '\n' ∧ w.head? = some '\n' ∧
      w.getLast? = some '\n' := by
  simp only [patMatches, Bool.and_eq_true, decide_eq_true_eq] at h
  exact ⟨h.1.1.1, h.1.1.2, h.1.2, h.2⟩

/-- Packing of a full pattern match. -/
theorem patMatches_build {w : List Char} (hs : allSpace w = true)
    (hc : 3 ≤ w.count '\n') (hh : w.head? = some '\n')
    (hl : w.getLast? = some '\n') : patMatches w = true := by
  simp only [patMatches, Bool.and_eq_true, decide_eq_true_eq]
  exact ⟨⟨⟨hs, hc⟩, hh⟩, hl⟩

/-- A matched window is at least three characters long. -/
theorem patMatches_length {w : List Char} (h : patMatches w = true) :
    3 ≤ w.length :=
  le_trans (patMatches_facts h).2.1 (List.count_le_length _ _)

/-- What a successful `bestMatch` means: a match of that length, within
bounds, and maximal. -/
theorem bestMatch_some {l : List Char} :
    ∀ {n k : Nat}, bestMatch l n = some k →
    patMatches (l.take k) = true ∧ k ≤ n ∧
      ∀ j, k < j → j ≤ n → patMatches (l.take j) = false := by
  intro n
  induction n with
  | zero => intro k h; simp [bestMatch] at h
  | succ m ih =>
    intro k h
    rw [bestMatch] at h
    by_cases hp : patMatches (l.take (m + 1)) = true
    · rw [if_pos hp] at h
      cases h
      exact ⟨hp, le_refl _, fun j hj1 hj2 => absurd hj1 (by omega)⟩
    · rw [if_neg hp] at h
      obtain ⟨h1, h2, h3⟩ := ih h
      refine ⟨h1, le_trans h2 (Nat.le_succ m), fun j hj1 hj2 => ?_⟩
      by_cases hj : j = m + 1
      · subst hj; exact Bool.eq_false_iff.mpr hp
      · exact h3 j hj1 (by omega)

/-- What a failed `bestMatch` means: no match of any length up to `n`. -/
theorem bestMatch_none {l : List Char} :
    ∀ {n : Nat}, bestMatch l n = none → ∀ j ≤ n,
      patMatches (l.take j) = false := by
  intro n
  induction n with
  | zero =>
    intro _ j hj
    have : j = 0 := by omega
    subst this
    rw [List.take_zero]
    decide
  | succ m ih =>
    intro h j hj
    rw [bestMatch] at h
    by_cases hp : patMatches (l.take (m + 1)) = true
    · rw [if_pos hp] at h; cases h
    · rw [if_neg hp] at h
      by_cases hj2 : j = m + 1
      · subst hj2; exact Bool.eq_false_iff.mpr hp
      · exact ih h j (by omega)

/-- A found leftmost-greedy match: it matches, it is at least three
characters, within the string, and no longer prefix matches. -/
theorem findMatchLen_some {l : List Char} {k : Nat}
    (h : findMatchLen l = some k) :
    patMatches (l.take k) = true ∧ 3 ≤ k ∧ k ≤ l.length ∧
      ∀ j, k < j → j ≤ l.length → patMatches (l.take j) = false := by
  obtain ⟨h1, h2, h3⟩ := bestMatch_some h
  have hk3 : 3 ≤ k := by
    have hlen := patMatches_length h1
    have hle : (l.take k).length ≤ k := by
      rw [List.length_take]; omega
    omega
  exact ⟨h1, hk3, h2, h3⟩

/-- A failed `findMatchLen`: no prefix of `l` matches at all. -/
theorem findMatchLen_none {l : List Char} (h : findMatchLen l = none) :
    ∀ j, patMatches (l.take j) = false := by
  intro j
  by_cases hj : j ≤ l.length
  · exact bestMatch_none h j hj
  · have h2 := bestMatch_none h l.length (le_refl _)
    rw [List.take_length] at h2
    rw [List.take_of_length_le (by omega)]
    exact h2

/-- A prefix is a contiguous substring. -/
theorem infix_of_pref {l₁ l₂ : List Char} (h : l₁ <+: l₂) : l₁ <:+: l₂ := by
  obtain ⟨t, ht⟩ := h
  exact ⟨[], t, by simpa using ht⟩

/-- A contiguous substring survives consing a head on the ambient list. -/
theorem infix_cons_extend {w : List Char} {c : Char} {l : List Char}
    (h : w <:+: l) : w <:+: c :: l := by
  obtain ⟨s, t, hst⟩ := h
  exact ⟨c :: s, t, by rw [← hst]; rfl⟩

/-- Whitespace-ness restricted to a prefix. -/
theorem allSpace_of_pref {w v : List Char} (hv : allSpace v = true)
    (h : w <+: v) : allSpace w = true := by
  obtain ⟨t, rfl⟩ := h
  rw [allSpace, List.all_append, Bool.and_eq_true] at hv
  exact hv.1

/-- Whitespace-ness of an appended pair. -/
theorem allSpace_append_intro {a b : List Char} (ha : allSpace a = true)
    (hb : allSpace b = true) : allSpace (a ++ b) = true := by
  simp only [allSpace] at ha hb ⊢
  rw [List.all_append, ha, hb]
  rfl

/-- The first element surviving `dropWhile` falsifies the predicate. -/
theorem dropWhile_head_not {p : Char → Bool} :
    ∀ (l : List Char) {c : Char} {cs : List Char},
      l.dropWhile p = c :: cs → p c = false := by
  intro l
  induction l with
  | nil => intro c cs h; simp [List.dropWhile] at h
  | cons x xs ih =>
    intro c cs h
    rw [List.dropWhile_cons] at h
    by_cases hx : p x = true
    · rw [if_pos hx] at h; exact ih h
    · rw [if_neg hx] at h
      cases h
      exact Bool.eq_false_iff.mpr hx

/-- Truncating at the last newline yields a prefix. -/
theorem trunc_pref (w : List Char) : truncAtLastNl w <+: w := by
  unfold truncAtLastNl
  obtain ⟨s, hs⟩ := List.dropWhile_suffix (l := w.reverse) fun c => !(c = '\n')
  refine ⟨s.reverse, ?_⟩
  rw [← List.reverse_append, hs, List.reverse_reverse]

/-- Truncating at the last newline drops no newline. -/
theorem trunc_count (w : List Char) :
    (truncAtLastNl w).count '\n' = w.count '\n' := by
  unfold truncAtLastNl
  rw [List.count_reverse]
  conv_rhs => rw [← List.count_reverse '\n' w,
    ← List.takeWhile_append_dropWhile (fun c => !(c = '\n')) w.reverse]
  rw [List.count_append]
  have hz : (w.reverse.takeWhile fun c => !(c = '\n')).count '\n' = 0 := by
    rw [List.count_eq_zero]
    intro hmem
    have := List.mem_takeWhile_imp hmem
    simp at this
  omega

/-- When `w` contains a newline, its truncation at the last newline is
nonempty and ends with a newline. -/
theorem trunc_getLast {w : List Char} (h : 1 ≤ w.count '\n') :
    (truncAtLastNl w).getLast? = some '\n' ∧ truncAtLastNl w ≠ [] := by
  have hmem : '\n' ∈ w.reverse := by
    rw [List.mem_reverse]
    exact List.count_pos_iff.mp (by omega)
  have hne : w.reverse.dropWhile (fun c => !(c = '\n')) ≠ [] := by
    intro h0
    have := List.dropWhile_eq_nil_iff.mp h0 '\n' hmem
    simp at this
  obtain ⟨d, ds, hd⟩ := List.exists_cons_of_ne_nil hne
  have hdn : d = '\n' := by
    have := dropWhile_head_not w.reverse hd
    simpa using this
  constructor
  · rw [truncAtLastNl, List.getLast?_reverse, hd, hdn]
    rfl
  · rw [truncAtLastNl]
    intro h0
    rw [List.reverse_eq_nil_iff] at h0
    exact hne h0

/-- All-whitespace prefixes of the rewritten string are dominated (in
newline count) by all-whitespace prefixes of the original string: the
rewrite never manufactures new leading newlines. -/
theorem reSub_prefix_transfer :
    ∀ (fuel : Nat) (l w' : List Char), l.length ≤ fuel →
      w' <+: reSubFuel fuel l → allSpace w' = true →
      ∃ w, w <+: l ∧ allSpace w = true ∧ w'.count '\n' ≤ w.count '\n' := by
  intro fuel
  induction fuel with
  | zero =>
    intro l w' _ hp hs
    exact ⟨w', hp, hs, le_refl _⟩
  | succ g ih =>
    intro l w' hlen hp hs
    cases hfm : findMatchLen l with
    | some k =>
      rw [show reSubFuel (g + 1) l = '\n' :: '\n' :: reSubFuel g (l.drop k)
        from by simp only [reSubFuel, hfm]] at hp
      obtain ⟨hpat, hk3, hkle, _⟩ := findMatchLen_some hfm
      cases w' with
      | nil => exact ⟨[], ⟨l, rfl⟩, by decide, by simp⟩
      | cons c1 w1 =>
        rw [List.cons_prefix_cons] at hp
        obtain ⟨rfl, hp1⟩ := hp
        cases w1 with
        | nil =>
          refine ⟨l.take k, ⟨l.drop k, List.take_append_drop k l⟩,
            (patMatches_facts hpat).1, ?_⟩
          have h3 := (patMatches_facts hpat).2.1
          have e1 : (['\n'] : List Char).count '\n' = 1 := by decide
          omega
        | cons c2 w2 =>
          rw [List.cons_prefix_cons] at hp1
          obtain ⟨rfl, hp2⟩ := hp1
          have hsw2 : allSpace w2 = true := by
            simp only [allSpace, List.all_cons, Bool.and_eq_true] at hs
            exact hs.2.2
          have hlen2 : (l.drop k).length ≤ g := by
            rw [List.length_drop]; omega
          obtain ⟨w0, hw0p, hw0s, hw0c⟩ := ih (l.drop k) w2 hlen2 hp2 hsw2
          refine ⟨l.take k ++ w0, ?_, ?_, ?_⟩
          · obtain ⟨t, ht⟩ := hw0p
            exact ⟨t, by rw [List.append_assoc, ht, List.take_append_drop]⟩
          · exact allSpace_append_intro (patMatches_facts hpat).1 hw0s
          · have h3 := (patMatches_facts hpat).2.1
            rw [List.count_append]
            have e1 : ('\n' :: '\n' :: w2).count '\n' = w2.count '\n' + 2 := by
              simp [List.count_cons]
            omega
    | none =>
      cases l with
      | nil =>
        rw [show reSubFuel (g + 1) ([] : List Char) = [] from rfl] at hp
        rw [List.prefix_nil] at hp
        subst hp
        exact ⟨[], ⟨[], rfl⟩, by decide, by simp⟩
      | cons c rest =>
        rw [show reSubFuel (g + 1) (c :: rest) = c :: reSubFuel g rest
          from by simp only [reSubFuel, hfm]] at hp
        cases w' with
        | nil => exact ⟨[], ⟨c :: rest, rfl⟩, by decide, by simp⟩
        | cons c1 w1 =>
          rw [List.cons_prefix_cons] at hp
          obtain ⟨rfl, hp1⟩ := hp
          have hs1 : allSpace w1 = true := by
            simp only [allSpace, List.all_cons, Bool.and_eq_true] at hs
            exact hs.2
          have hsc : pyIsSpace c1 = true := by
            simp only [allSpace, List.all_cons, Bool.and_eq_true] at hs
            exact hs.1
          have hlen1 : rest.length ≤ g := by
            simp only [List.length_cons] at hlen; omega
          obtain ⟨w0, hw0p, hw0s, hw0c⟩ := ih rest w1 hlen1 hp1 hs1
          refine ⟨c1 :: w0, ?_, ?_, ?_⟩
          · rw [List.cons_prefix_cons]; exact ⟨rfl, hw0p⟩
          · simp only [allSpace, List.all_cons, Bool.and_eq_true]
            exact ⟨hsc, by simpa [allSpace] using hw0s⟩
          · simp only [List.count_cons]
            split_ifs <;> omega


/-- The empty string contains no match. -/
theorem goodBlank_nil : GoodBlank [] := by
  intro w hw
  rw [List.infix_nil] at hw
  subst hw
  decide

/-- On a string with no match anywhere, the rewrite is the identity (any
fuel). -/
theorem goodBlank_identity :
    ∀ (fuel : Nat) (y : List Char), GoodBlank y → reSubFuel fuel y = y := by
  intro fuel
  induction fuel with
  | zero => intro y _; rfl
  | succ g ih =>
    intro y hg
    cases hfm : findMatchLen y with
    | some k =>
      obtain ⟨hpat, _, _, _⟩ := findMatchLen_some hfm
      have hfalse := hg (y.take k)
        (infix_of_pref ⟨y.drop k, List.take_append_drop k y⟩)
      rw [hfalse] at hpat
      cases hpat
    | none =>
      cases y with
      | nil => rfl
      | cons c rest =>
        rw [show reSubFuel (g + 1) (c :: rest) = c :: reSubFuel g rest
          from by simp only [reSubFuel, hfm]]
        rw [ih rest fun w hw => hg w (infix_cons_extend hw)]

/-- Maximality of the greedy match: no all-whitespace prefix of the
remainder may contain a newline, or the match would have extended. -/
theorem no_ws_after_match {l : List Char} {k : Nat} {u : List Char}
    (hpat : patMatches (l.take k) = true)
    (hmax : ∀ j, k < j → j ≤ l.length → patMatches (l.take j) = false)
    (hup : u <+: l.drop k) (hus : allSpace u = true)
    (huc : 1 ≤ u.count '\n') : False := by
  obtain ⟨hlast, hne0⟩ := trunc_getLast (w := u) huc
  have hu'p : truncAtLastNl u <+: l.drop k := (trunc_pref u).trans hup
  have htk : l.take (k + (truncAtLastNl u).length) =
      l.take k ++ truncAtLastNl u := by
    rw [List.take_add]
    congr 1
    exact (List.prefix_iff_eq_take.mp hu'p).symm
  have hmatch : patMatches (l.take (k + (truncAtLastNl u).length)) = true := by
    rw [htk]
    refine patMatches_build ?_ ?_ ?_ ?_
    · exact allSpace_append_intro (patMatches_facts hpat).1
        (allSpace_of_pref hus (trunc_pref u))
    · rw [List.count_append, trunc_count]
      have := (patMatches_facts hpat).2.1
      omega
    · rw [List.head?_append, (patMatches_facts hpat).2.2.1]
      rfl
    · rw [List.getLast?_append, hlast]
      rfl
  have hlt : k < k + (truncAtLastNl u).length := by
    have : 0 < (truncAtLastNl u).length := List.length_pos.mpr hne0
    omega
  have hle2 : k + (truncAtLastNl u).length ≤ l.length := by
    obtain ⟨t, ht⟩ := hu'p
    have hlen : (truncAtLastNl u).length + t.length = (l.drop k).length := by
      rw [← ht, List.length_append]
    rw [List.length_drop] at hlen
    omega
  have hfls := hmax _ hlt hle2
  rw [hmatch] at hfls
  cases hfls

/-- Core invariant: the rewritten string contains no match of
`\n\s*\n\s*\n` anywhere. -/
theorem reSub_good :
    ∀ (fuel : Nat) (l : List Char), l.length ≤ fuel →
      GoodBlank (reSubFuel fuel l) := by
  intro fuel
  induction fuel with
  | zero =>
    intro l hlen
    have hl : l = [] := List.eq_nil_of_length_eq_zero (Nat.le_zero.mp hlen)
    subst hl
    exact goodBlank_nil
  | succ g ih =>
    intro l hlen
    cases hfm : findMatchLen l with
    | none =>
      cases l with
      | nil =>
        rw [show reSubFuel (g + 1) ([] : List Char) = [] from rfl]
        exact goodBlank_nil
      | cons c rest =>
        rw [show reSubFuel (g + 1) (c :: rest) = c :: reSubFuel g rest
          from by simp only [reSubFuel, hfm]]
        have hrest : rest.length ≤ g := by
          simp only [List.length_cons] at hlen; omega
        have ihg := ih rest hrest
        intro w hw
        rw [List.infix_cons_iff] at hw
        rcases hw with hw | hw
        · by_contra htrue
          rw [Bool.not_eq_false] at htrue
          obtain ⟨hws, hwc, hwh, _⟩ := patMatches_facts htrue
          cases w with
          | nil => simp at hwh
          | cons c1 w1 =>
            rw [List.cons_prefix_cons] at hw
            obtain ⟨rfl, hp1⟩ := hw
            have hc1 : c1 = '\n' := by simpa using hwh
            have hs1 : allSpace w1 = true := by
              simp only [allSpace, List.all_cons, Bool.and_eq_true] at hws
              exact hws.2
            have hc2 : 2 ≤ w1.count '\n' := by
              rw [List.count_cons] at hwc
              split_ifs at hwc <;> omega
            obtain ⟨w0, hw0p, hw0s, hw0c⟩ :=
              reSub_prefix_transfer g rest w1 hrest hp1 hs1
            obtain ⟨hlast, hne0⟩ := trunc_getLast
              (w := w0) (by omega : 1 ≤ w0.count '\n')
            have htru : patMatches ('\n' :: truncAtLastNl w0) = true := by
              refine patMatches_build ?_ ?_ rfl ?_
              · have hsp : allSpace (truncAtLastNl w0) = true :=
                  allSpace_of_pref hw0s (trunc_pref w0)
                simp only [allSpace, List.all_cons, Bool.and_eq_true]
                exact ⟨by decide, by simpa [allSpace] using hsp⟩
              · have e2 : ('\n' :: truncAtLastNl w0).count '\n'
                    = (truncAtLastNl w0).count '\n' + 1 := by
                  simp [List.count_cons]
                rw [e2, trunc_count]
                omega
              · show (['\n'] ++ truncAtLastNl w0 : List Char).getLast?
                  = some '\n'
                rw [List.getLast?_append, hlast]
                rfl
            have hpre : ('\n' :: truncAtLastNl w0) <+: (c1 :: rest) := by
              rw [hc1, List.cons_prefix_cons]
              exact ⟨rfl, (trunc_pref w0).trans hw0p⟩
            have htk : (c1 :: rest).take ('\n' :: truncAtLastNl w0).length =
                '\n' :: truncAtLastNl w0 :=
              (List.prefix_iff_eq_take.mp hpre).symm
            have hfls := findMatchLen_none hfm
              ('\n' :: truncAtLastNl w0).length
            rw [htk, htru] at hfls
            cases hfls
        · exact ihg w hw
    | some k =>
      rw [show reSubFuel (g + 1) l = '\n' :: '\n' :: reSubFuel g (l.drop k)
        from by simp only [reSubFuel, hfm]]
      obtain ⟨hpat, hk3, hkle, hmax⟩ := findMatchLen_some hfm
      have hdlen : (l.drop k).length ≤ g := by
        rw [List.length_drop]; omega
      have ihg := ih (l.drop k) hdlen
      have main : ∀ w1 : List Char, w1 <+: reSubFuel g (l.drop k) →
          allSpace w1 = true → 1 ≤ w1.count '\n' → False := by
        intro w1 hp hs hc
        obtain ⟨w0, hw0p, hw0s, hw0c⟩ :=
          reSub_prefix_transfer g (l.drop k) w1 hdlen hp hs
        exact no_ws_after_match hpat hmax hw0p hw0s (by omega)
      intro w hw
      rw [List.infix_cons_iff] at hw
      rcases hw with hw | hw
      · -- w is a prefix of '\n' :: '\n' :: Y
        by_contra htrue
        rw [Bool.not_eq_false] at htrue
        obtain ⟨hws, hwc, hwh, _⟩ := patMatches_facts htrue
        cases w with
        | nil => simp at hwh
        | cons c1 w1 =>
          rw [List.cons_prefix_cons] at hw
          obtain ⟨rfl, hp1⟩ := hw
          cases w1 with
          | nil =>
            rw [List.count_cons, List.count_nil] at hwc
            split_ifs at hwc <;> omega
          | cons c2 w2 =>
            rw [List.cons_prefix_cons] at hp1
            obtain ⟨rfl, hp2⟩ := hp1
            have hs2 : allSpace w2 = true := by
              simp only [allSpace, List.all_cons, Bool.and_eq_true] at hws
              exact hws.2.2
            have hc2 : 1 ≤ w2.count '\n' := by
              rw [List.count_cons, List.count_cons] at hwc
              split_ifs at hwc <;> omega
            exact main w2 hp2 hs2 hc2
      · rw [List.infix_cons_iff] at hw
        rcases hw with hw | hw
        · -- w is a prefix of '\n' :: Y
          by_contra htrue
          rw [Bool.not_eq_false] at htrue
          obtain ⟨hws, hwc, hwh, _⟩ := patMatches_facts htrue
          cases w with
          | nil => simp at hwh
          | cons c1 w1 =>
            rw [List.cons_prefix_cons] at hw
            obtain ⟨rfl, hp1⟩ := hw
            have hs1 : allSpace w1 = true := by
              simp only [allSpace, List.all_cons, Bool.and_eq_true] at hws
              exact hws.2
            have hc1 : 1 ≤ w1.count '\n' := by
              rw [List.count_cons] at hwc
              split_ifs at hwc <;> omega
            exact main w1 hp1 hs1 hc1
        · exact ihg w hw

/-- Stripping yields a contiguous substring. -/
theorem pyStrip_is_sub (l : List Char) : pyStrip l <:+: l := by
  obtain ⟨s, hs⟩ := List.dropWhile_suffix (l := l) pyIsSpace
  obtain ⟨s2, hs2⟩ := List.dropWhile_suffix
    (l := (l.dropWhile pyIsSpace).reverse) pyIsSpace
  refine ⟨s, s2.reverse, ?_⟩
  have hd : l.dropWhile pyIsSpace =
      ((l.dropWhile pyIsSpace).reverse.dropWhile pyIsSpace).reverse ++
        s2.reverse := by
    rw [← List.reverse_append, hs2, List.reverse_reverse]
  show s ++ pyStrip l ++ s2.reverse = l
  rw [List.append_assoc, pyStrip, ← hd]
  exact hs

/-- The function `dropWhile` is idempotent. -/
theorem dropWhile_idem {p : Char → Bool} (l : List Char) :
    (l.dropWhile p).dropWhile p = l.dropWhile p := by
  cases hd : l.dropWhile p with
  | nil => rfl
  | cons c cs =>
    have hc := dropWhile_head_not l hd
    rw [List.dropWhile_cons, if_neg (by simp [hc])]

/-- Stripping is idempotent. -/
theorem pyStrip_idem (l : List Char) : pyStrip (pyStrip l) = pyStrip l := by
  have key : ∀ y : List Char,
      (((y.dropWhile pyIsSpace).reverse.dropWhile
          pyIsSpace).reverse).dropWhile pyIsSpace =
        ((y.dropWhile pyIsSpace).reverse.dropWhile pyIsSpace).reverse := by
    intro y
    cases he : (y.dropWhile pyIsSpace).reverse.dropWhile pyIsSpace with
    | nil => simp
    | cons c0 cs0 =>
      have hdne : y.dropWhile pyIsSpace ≠ [] := by
        intro h0
        rw [h0] at he
        simp at he
      obtain ⟨dc, dcs, hdc⟩ := List.exists_cons_of_ne_nil hdne
      have hdch : pyIsSpace dc = false := dropWhile_head_not y hdc
      have hlast : (c0 :: cs0).getLast? = some dc := by
        obtain ⟨t, ht⟩ : ∃ t, t ++ c0 :: cs0 =
            (y.dropWhile pyIsSpace).reverse := by
          obtain ⟨t, ht⟩ := List.dropWhile_suffix
            (l := (y.dropWhile pyIsSpace).reverse) pyIsSpace
          exact ⟨t, by rw [← he]; exact ht⟩
        have h1 := List.getLast?_append_cons t c0 cs0
        rw [ht, List.getLast?_reverse, hdc] at h1
        simpa using h1.symm
      obtain ⟨rc, rcs, hrc⟩ := List.exists_cons_of_ne_nil
        (show (c0 :: cs0).reverse ≠ [] by simp)
      have hhead : rc = dc := by
        have h2 : (c0 :: cs0).reverse.head? = some dc := by
          rw [List.head?_reverse, hlast]
        rw [hrc] at h2
        simpa using h2
      rw [hrc, List.dropWhile_cons, if_neg (by simp [hhead, hdch])]
  have step1 : (pyStrip l).dropWhile pyIsSpace = pyStrip l := key l
  show (((pyStrip l).dropWhile pyIsSpace).reverse.dropWhile
      pyIsSpace).reverse = pyStrip l
  rw [step1]
  rw [show (pyStrip l).reverse
      = (l.dropWhile pyIsSpace).reverse.dropWhile pyIsSpace from by
    simp only [pyStrip, List.reverse_reverse]]
  rw [dropWhile_idem]
  rfl

/-- C3: `clean_note` is idempotent — cleaning an already cleaned note
changes nothing: the blank-line rewrite leaves no residual match
(`reSub_good`), matches survive neither stripping (a substring of a
match-free string is match-free) nor a second rewrite
(`goodBlank_identity`), and stripping a stripped string is the
identity. -/
theorem clean_note_idempotent (x : List Char) :
    clean_note (clean_note x) = clean_note x := by
  have hgood : GoodBlank (pyReSubBlank x) := reSub_good x.length x (le_refl _)
  have hgood2 : GoodBlank (pyStrip (pyReSubBlank x)) := by
    intro w hw
    exact hgood w (hw.trans (pyStrip_is_sub _))
  have hid : pyReSubBlank (pyStrip (pyReSubBlank x)) =
      pyStrip (pyReSubBlank x) :=
    goodBlank_identity _ _ hgood2
  show pyStrip (pyReSubBlank (pyStrip (pyReSubBlank x))) = clean_note x
  rw [hid]
  exact pyStrip_idem _
